import Mathlib

/-!
Verification of the go-share peer-to-peer file-sharing repository.

The development is a shallow embedding of the repository's Go code:
files are lists of bytes, the SHA-256 hex digest is an explicit function
parameter `H : Bytes → Bytes` (the claims depend only on which bytes are
digested and on the digest's fixed 64-character hex length, never on the
internals of SHA-256), stateful handlers are explicit state-passing
functions, and fallible operations return `Except` or a result structure
carrying an error field.
-/

namespace GoShare

/-- Bytes models a Go byte slice: a list of byte values. -/
abbrev Bytes := List Nat

/-- Chunk mirrors the Go struct `file.Chunk`: `hash` is the hex-encoded
SHA-256 digest string of the chunk (modelled as a list of character
codes, length 64 for a real SHA-256 hex digest) and `size` is the chunk
size in bytes. -/
structure Chunk where
  hash : Bytes
  size : Nat
deriving DecidableEq

/-- Default chunk value used with `List.getD` when indexing chunk lists. -/
def cdef : Chunk := ⟨[], 0⟩

/-- Manifest mirrors the Go struct `file.Manifest`. -/
structure Manifest where
  fileName : String
  fileSize : Nat
  chunkSize : Nat
  chunks : List Chunk
  fileHash : Bytes
deriving DecidableEq

/-- DefaultChunkSize mirrors `const DefaultChunkSize = 1024 * 1024`. -/
def DefaultChunkSize : Nat := 1024 * 1024

/-- numChunks mirrors `numChunks := (fileInfo.Size() + chunkSize - 1) / chunkSize`
from `CreateManifest`. -/
def numChunks (n c : Nat) : Nat := (n + c - 1) / c

/-- chunkSizeAt mirrors the loop body of `CreateManifest`:
`chunkSize := chunkSize` shadows the parameter, and for the last chunk
(`i == numChunks-1`) it is reassigned to `fileInfo.Size() - i*chunkSize`
(the right-hand side still reads the original value). -/
def chunkSizeAt (n c i : Nat) : Nat :=
  if i = numChunks n c - 1 then n - i * c else c

/-- CreateManifest mirrors `file.CreateManifest`. The whole-file hash is the
digest of the full byte stream. Each chunk's hash is computed by
`file.Seek(i*chunkSize, 0)` followed by `file.WriteTo(chunkHash)`: `WriteTo`
reads from the seek position **to end of file**, so the digested bytes are
`file.drop (i * chunkSizeAt n c i)` — the suffix starting at the seek offset,
where the seek offset uses the shadowed (possibly reassigned) `chunkSize`. -/
def CreateManifest (H : Bytes → Bytes) (fileName : String) (file : Bytes) (c : Nat) :
    Manifest :=
  let n := file.length
  { fileName := fileName
    fileSize := n
    chunkSize := c
    fileHash := H file
    chunks := (List.range (numChunks n c)).map (fun i =>
      { size := chunkSizeAt n c i
        hash := H (file.drop (i * chunkSizeAt n c i)) }) }

/-- GErr is the error outcome of `GetChunk`: a read/seek failure or the
`"chunk hash verification failed"` error. -/
inductive GErr
  | ioError
  | integrityError
deriving DecidableEq

/-- getChunkOffset mirrors the offset loop of `file.GetChunk`:
`for i := 0; i < len(chunk.Hash); i++ { offset += chunk.Size }`. -/
def getChunkOffset (chunk : Chunk) : Nat :=
  (List.range chunk.hash.length).foldl (fun acc _ => acc + chunk.size) 0

/-- GetChunk mirrors `file.GetChunk(filePath, chunk)`: compute the offset by
the loop over the hash string's characters, seek there, read exactly
`chunk.Size` bytes with `io.ReadFull` (an error when fewer bytes remain),
then recompute the digest and compare with `chunk.Hash`. -/
def GetChunk (H : Bytes → Bytes) (file : Bytes) (chunk : Chunk) :
    Except GErr Bytes :=
  let offset := getChunkOffset chunk
  let avail := file.drop offset
  if avail.length < chunk.size then
    Except.error GErr.ioError
  else
    let data := avail.take chunk.size
    if H data = chunk.hash then Except.ok data
    else Except.error GErr.integrityError

/-- VerifyChunk mirrors `file.VerifyChunk`: true iff the digest of `data`
equals `chunk.Hash`. -/
def VerifyChunk (H : Bytes → Bytes) (chunk : Chunk) (data : Bytes) : Bool :=
  decide (H data = chunk.hash)

/-- ServeOutcome distinguishes the return paths of `peer.handleConnection`:
the invalid-index early return, the `GetChunk` error return, and the
successful write of the chunk data. In every non-served case the connection
is closed with no payload written. -/
inductive ServeOutcome
  | invalidIndex
  | readFailed
  | served (data : Bytes)
deriving DecidableEq

/-- handleConnection mirrors `peer.handleConnection` for a well-formed request:
it recreates the manifest from the on-disk file with `file.DefaultChunkSize`,
rejects `req.ChunkIndex < 0 || req.ChunkIndex >= len(manifest.Chunks)`, and
otherwise reads the requested chunk. The source calls
`file.GetChunk(filePath, manifest, req.ChunkIndex)` while the only `GetChunk`
in the repository takes `(filePath, chunk)`; it is modelled as passing
`manifest.Chunks[req.ChunkIndex]`. -/
def handleConnection (H : Bytes → Bytes) (nm : String) (file : Bytes) (idx : Int) :
    ServeOutcome :=
  let manifest := CreateManifest H nm file DefaultChunkSize
  if idx < 0 ∨ (manifest.chunks.length : Int) ≤ idx then
    ServeOutcome.invalidIndex
  else
    match GetChunk H file (manifest.chunks.getD idx.toNat cdef) with
    | Except.error _ => ServeOutcome.readFailed
    | Except.ok data => ServeOutcome.served data

/-- serveWrites gives the bytes written to the connection for an outcome:
only the served path writes anything. -/
def serveWrites : ServeOutcome → Bytes
  | ServeOutcome.served d => d
  | _ => []

/-- DlErr is the error outcome of the download client; `verifyFail` is the
`"chunk hash verification failed"` abort of `DownloadFile` (the
IntegrityError of the specification). -/
inductive DlErr
  | connectFail
  | readFail
  | verifyFail
deriving DecidableEq

/-- Ev records connection lifecycle events of the download client:
`openC i` is the `net.Dial` for chunk `i`, `closeC i` the corresponding
`conn.Close()`. -/
inductive Ev
  | openC (i : Nat)
  | closeC (i : Nat)
deriving DecidableEq

/-- Ev.isOpen selects the connection-open events. -/
def Ev.isOpen : Ev → Bool
  | Ev.openC _ => true
  | Ev.closeC _ => false

/-- ReadFull mirrors `io.ReadFull(conn, buf)` with `len(buf) = size` against a
connection that delivers `delivered` and then closes: it yields exactly
`size` bytes when that many arrive, and an error when the connection closes
first. -/
def ReadFull (delivered : Bytes) (size : Nat) : Except Unit Bytes :=
  if size ≤ delivered.length then Except.ok (delivered.take size)
  else Except.error ()

/-- DlResult is the observable outcome of `DownloadFile`: the bytes written to
the output file, the connection events in order, and the error if any. -/
structure DlResult where
  written : Bytes
  events : List Ev
  error : Option DlErr
deriving DecidableEq

/-- dlGo is the chunk loop of `peer.DownloadFile`. Per chunk `k`: dial
(`net k = none` models a dial failure, before any `defer` is registered),
register `defer conn.Close()` (the deferred stack `df` runs in LIFO order at
function return — the `defer` sits inside the loop, so no close runs between
iterations), `io.ReadFull` exactly `chunk.Size` bytes, verify the digest, and
only then append to the output file. Every return path flushes the deferred
closes. -/
def dlGo (H : Bytes → Bytes) (net : Nat → Option Bytes) :
    Nat → List Chunk → Bytes → List Ev → List Nat → DlResult
  | _, [], w, ev, df => ⟨w, ev ++ df.map Ev.closeC, none⟩
  | k, ch :: rest, w, ev, df =>
    match net k with
    | none => ⟨w, ev ++ df.map Ev.closeC, some DlErr.connectFail⟩
    | some delivered =>
      match ReadFull delivered ch.size with
      | Except.error _ =>
        ⟨w, (ev ++ [Ev.openC k]) ++ (k :: df).map Ev.closeC, some DlErr.readFail⟩
      | Except.ok data =>
        if H data = ch.hash then
          dlGo H net (k + 1) rest (w ++ data) (ev ++ [Ev.openC k]) (k :: df)
        else
          ⟨w, (ev ++ [Ev.openC k]) ++ (k :: df).map Ev.closeC, some DlErr.verifyFail⟩

/-- DownloadFile mirrors `peer.DownloadFile`: create the output file, then
fetch the chunks of the manifest sequentially, starting from chunk 0 with
empty output, no events and no deferred closes. -/
def DownloadFile (H : Bytes → Bytes) (M : Manifest) (net : Nat → Option Bytes) :
    DlResult :=
  dlGo H net 0 M.chunks [] [] []

/-- DownloadChunk mirrors the read phase of `peer.DownloadChunk`: after
dialling and sending the request it reads with `io.ReadAll(conn)`, which
returns every byte delivered before the connection closed and a nil error —
a clean close is normal end-of-stream for `ReadAll`, never a failure. -/
def DownloadChunk (delivered : Bytes) : Except DlErr Bytes :=
  Except.ok delivered

/-- Peer mirrors the tracker's `Peer` struct. -/
structure Peer where
  address : String
  port : Int
deriving DecidableEq

/-- AnnounceRequest mirrors the tracker's `AnnounceRequest` struct. -/
structure AnnounceRequest where
  fileHash : String
  address : String
  port : Int
deriving DecidableEq

/-- TrackerMap models the Go map `map[string][]Peer`: `none` is a missing key,
whose read yields a nil slice. Values stored by `Announce` are always
non-nil, so `none` and `some []` never coincide in reachable states. -/
def TrackerMap := String → Option (List Peer)

/-- emptyTracker is the freshly initialised tracker map. -/
def emptyTracker : TrackerMap := fun _ => none

/-- peersOf is the Go map read `t.peers[h]`: a missing key reads as the nil
(empty) slice. -/
def peersOf (t : TrackerMap) (h : String) : List Peer := (t h).getD []

/-- announcePeer mirrors the registry update inside `Tracker.Announce`:
scan the slice for a peer with the same address and port; if one is found
return with the map unchanged, otherwise append the peer. -/
def announcePeer (t : TrackerMap) (h : String) (p : Peer) : TrackerMap :=
  let peers := peersOf t h
  if peers.any (fun q => q.address == p.address && q.port == p.port) then t
  else fun k => if k = h then some (peers ++ [p]) else t k

/-- Method models the HTTP request method as seen by the handlers. -/
inductive Method
  | post
  | get
  | other
deriving DecidableEq

/-- Announce mirrors `Tracker.Announce` as a function from request to
(status code, new tracker state): non-POST methods get
405 Method Not Allowed, an undecodable body gets 400, and any decoded body
— with no validation of fileHash, address or port — updates the registry
and results in 200 (the duplicate-peer early return writes no header, which
net/http reports as an implicit 200). -/
def Announce (t : TrackerMap) (m : Method) (body : Option AnnounceRequest) :
    Nat × TrackerMap :=
  if m ≠ Method.post then (405, t)
  else
    match body with
    | none => (400, t)
    | some req => (200, announcePeer t req.fileHash ⟨req.address, req.port⟩)

/-- JVal models the JSON value encoded for the `peers` field:
`encoding/json` marshals a nil slice as `null` and a non-nil slice as an
array. -/
inductive JVal
  | null
  | arr (l : List Peer)
deriving DecidableEq

/-- marshalPeers is the `encoding/json` marshalling of the `Peers` slice. -/
def marshalPeers : Option (List Peer) → JVal
  | none => JVal.null
  | some l => JVal.arr l

/-- GetPeers mirrors `Tracker.GetPeers`: non-GET gets 405, an empty or
missing `fileHash` query parameter gets 400 (no body), and otherwise the
handler responds 200 with the marshalled `peers` field of the slice read
from the map. -/
def GetPeers (t : TrackerMap) (m : Method) (h : String) : Nat × Option JVal :=
  if m ≠ Method.get then (405, none)
  else if h = "" then (400, none)
  else (200, some (marshalPeers (t h)))

/-- hashId is a concrete injective stand-in for the digest function used in
concrete evaluations; only which bytes are digested matters to the claims. -/
def hashId : Bytes → Bytes := fun d => d

/-- hash64 is a concrete stand-in with the fixed 64-character output length
of a hex-encoded SHA-256 digest. -/
def hash64 : Bytes → Bytes := fun _ => List.replicate 64 48

example : numChunks 10 3 = 4 := by decide
example : chunkSizeAt 10 3 3 = 1 := by decide
example : (CreateManifest hashId "f" [7, 9] 1).chunks =
    [⟨[7, 9], 1⟩, ⟨[9], 1⟩] := by decide
example : getChunkOffset ⟨List.replicate 64 97, 10⟩ = 640 := by decide

/-! Helper lemmas about the chunker. -/

lemma foldl_const_add (s : Nat) :
    ∀ (l : List Nat) (a : Nat), l.foldl (fun acc _ => acc + s) a = a + l.length * s
  | [], a => by simp
  | _ :: l, a => by
    simp only [List.foldl_cons, foldl_const_add s l (a + s), List.length_cons]
    ring

lemma getChunkOffset_eq (chunk : Chunk) :
    getChunkOffset chunk = chunk.hash.length * chunk.size := by
  simp [getChunkOffset, foldl_const_add]

lemma chunks_length (H : Bytes → Bytes) (nm : String) (file : Bytes) (c : Nat) :
    (CreateManifest H nm file c).chunks.length = numChunks file.length c := by
  simp [CreateManifest]

lemma getD_range_map {α : Type} (f : Nat → α) (d : α) {m i : Nat} (h : i < m) :
    ((List.range m).map f).getD i d = f i := by
  have hl : i < ((List.range m).map f).length := by simpa using h
  rw [List.getD_eq_getElem _ _ hl]
  simp

lemma chunks_getD (H : Bytes → Bytes) (nm : String) (file : Bytes) (c : Nat)
    {i : Nat} (h : i < numChunks file.length c) :
    (CreateManifest H nm file c).chunks.getD i cdef =
      ⟨H (file.drop (i * chunkSizeAt file.length c i)),
        chunkSizeAt file.length c i⟩ := by
  unfold CreateManifest
  exact getD_range_map _ _ h

lemma numChunks_zero_left (c : Nat) (hc : 0 < c) : numChunks 0 c = 0 := by
  unfold numChunks
  exact Nat.div_eq_of_lt (by omega)

lemma numChunks_pos_eq (n c : Nat) (hc : 0 < c) (hn : 0 < n) :
    numChunks n c = (n - 1) / c + 1 := by
  unfold numChunks
  have h1 : n + c - 1 = (n - 1) + c := by omega
  rw [h1, Nat.add_div_right _ hc]

lemma sum_map_const : ∀ (l : List Nat) (c : Nat), (l.map (fun _ => c)).sum = l.length * c
  | [], c => by simp
  | _ :: l, c => by
    simp only [List.map_cons, List.sum_cons, sum_map_const l c, List.length_cons]
    ring

/-- C1: the claim states that `GetChunk` locates a chunk at byte offset
`index * chunkSize`, reads exactly `chunk.size` bytes there, and verifies
the digest. The code instead accumulates `chunk.Size` once per character of
the 64-character hex hash string, i.e. it seeks to `64 * chunk.size`: for a
10-byte file and its single chunk (index 0, size 10, offset 0 per the
claim), the code seeks to byte 640, the read past end-of-file fails, and
the chunk is never returned. -/
theorem C1_getChunk_wrong_offset :
    GetChunk hashId (List.range 10) ⟨List.replicate 64 97, 10⟩ =
      Except.error GErr.ioError ∧
    getChunkOffset ⟨List.replicate 64 97, 10⟩ = 64 * 10 ∧
    64 * 10 ≠ 0 * (10 : Nat) := by
  refine ⟨rfl, by decide, by decide⟩

/-- C2: the claim states that each chunk's hash is the digest over exactly
that chunk's byte range and nothing more. For the 2-byte file `[7, 9]` with
`chunkSize = 1`, chunk 0 (byte range `[0, 1)`, contents `[7]`) gets the
digest of `[7, 9]` — the whole remaining file — because `file.WriteTo(hash)`
reads from the seek position to end-of-file; since the digest is injective
on distinct inputs (collision resistance of SHA-256, mirrored by the
injective stand-in `hashId`), that hash differs from the digest of the
chunk's own bytes. -/
theorem C2_chunk_hash_covers_suffix :
    ((CreateManifest hashId "f" [7, 9] 1).chunks.getD 0 cdef).hash = hashId [7, 9] ∧
    ((CreateManifest hashId "f" [7, 9] 1).chunks.getD 0 cdef).size = 1 ∧
    hashId [7, 9] ≠ hashId [7] :=
  ⟨by decide, by decide, by decide⟩

/-- C5: for every file and every `chunkSize > 0`, `CreateManifest` produces
`ceil(fileSize / chunkSize)` chunks (characterised by
`fileSize ≤ count * chunkSize < fileSize + chunkSize`) whose sizes sum to
`fileSize`; every chunk except the last has size `chunkSize`, the last
chunk's size lies in `(0, chunkSize]`, and there are 0 chunks exactly when
the file is empty. -/
theorem C5_chunk_layout (H : Bytes → Bytes) (nm : String) (file : Bytes) (c : Nat)
    (hc : 0 < c) :
    file.length ≤ (CreateManifest H nm file c).chunks.length * c ∧
    (CreateManifest H nm file c).chunks.length * c < file.length + c ∧
    ((CreateManifest H nm file c).chunks.map (fun ch => ch.size)).sum = file.length ∧
    (∀ i, i + 1 < (CreateManifest H nm file c).chunks.length →
      ((CreateManifest H nm file c).chunks.getD i cdef).size = c) ∧
    (0 < file.length →
      0 < ((CreateManifest H nm file c).chunks.getD
            ((CreateManifest H nm file c).chunks.length - 1) cdef).size ∧
      ((CreateManifest H nm file c).chunks.getD
            ((CreateManifest H nm file c).chunks.length - 1) cdef).size ≤ c) ∧
    ((CreateManifest H nm file c).chunks.length = 0 ↔ file.length = 0) := by
  have hlen := chunks_length H nm file c
  rcases Nat.eq_zero_or_pos file.length with h0 | hpos
  · have hm : numChunks file.length c = 0 := by rw [h0]; exact numChunks_zero_left c hc
    have hch : (CreateManifest H nm file c).chunks = [] := by
      simp [CreateManifest, hm]
    refine ⟨?_, ?_, ?_, ?_, ?_, ?_⟩ <;> simp [hch, h0, hc]
  · obtain ⟨q, hq⟩ : ∃ q, (file.length - 1) / c = q := ⟨_, rfl⟩
    obtain ⟨r, hr⟩ : ∃ r, (file.length - 1) % c = r := ⟨_, rfl⟩
    have hm : numChunks file.length c = q + 1 := by
      rw [numChunks_pos_eq file.length c hc hpos, hq]
    have e1 : c * q + r = file.length - 1 := by
      rw [← hq, ← hr]; exact Nat.div_add_mod _ _
    have e2 : r < c := by rw [← hr]; exact Nat.mod_lt _ hc
    have p1 : (q + 1) * c = c * q + c := by ring
    have p2 : q * c = c * q := by ring
    refine ⟨?_, ?_, ?_, ?_, ?_, ?_⟩
    · rw [hlen, hm, p1]; omega
    · rw [hlen, hm, p1]; omega
    · have hmap : (CreateManifest H nm file c).chunks.map (fun ch => ch.size) =
          (List.range (q + 1)).map (chunkSizeAt file.length c) := by
        simp [CreateManifest, List.map_map, hm]
      rw [hmap, List.range_succ, List.map_append, List.sum_append]
      have hcongr : (List.range q).map (chunkSizeAt file.length c) =
          (List.range q).map (fun _ => c) := by
        apply List.map_congr_left
        intro i hi
        rw [List.mem_range] at hi
        unfold chunkSizeAt
        rw [hm, Nat.add_sub_cancel, if_neg (by omega)]
      rw [hcongr, sum_map_const]
      simp only [List.length_range, List.map_cons, List.map_nil, List.sum_cons,
        List.sum_nil]
      unfold chunkSizeAt
      rw [hm, Nat.add_sub_cancel, if_pos rfl]
      omega
    · intro i hi
      rw [hlen, hm] at hi
      rw [chunks_getD H nm file c (by rw [hm]; omega)]
      show chunkSizeAt file.length c i = c
      unfold chunkSizeAt
      rw [hm, Nat.add_sub_cancel, if_neg (by omega)]
    · intro _
      rw [hlen, hm, Nat.add_sub_cancel]
      rw [chunks_getD H nm file c (by rw [hm]; omega)]
      show 0 < chunkSizeAt file.length c q ∧ chunkSizeAt file.length c q ≤ c
      unfold chunkSizeAt
      rw [hm, Nat.add_sub_cancel, if_pos rfl]
      constructor <;> omega
    · rw [hlen, hm]
      omega

/-- Witness for C5 at the 3-byte file `[1, 2, 3]` with `chunkSize = 2`. -/
theorem C5_chunk_layout_witness :
    (0 : Nat) < 2 ∧
    ((List.cons 1 [2, 3] : Bytes).length ≤
        (CreateManifest hashId "f" [1, 2, 3] 2).chunks.length * 2 ∧
      (CreateManifest hashId "f" [1, 2, 3] 2).chunks.length * 2 <
        (List.cons 1 [2, 3] : Bytes).length + 2 ∧
      ((CreateManifest hashId "f" [1, 2, 3] 2).chunks.map (fun ch => ch.size)).sum =
        (List.cons 1 [2, 3] : Bytes).length ∧
      (∀ i, i + 1 < (CreateManifest hashId "f" [1, 2, 3] 2).chunks.length →
        ((CreateManifest hashId "f" [1, 2, 3] 2).chunks.getD i cdef).size = 2) ∧
      (0 < (List.cons 1 [2, 3] : Bytes).length →
        0 < ((CreateManifest hashId "f" [1, 2, 3] 2).chunks.getD
              ((CreateManifest hashId "f" [1, 2, 3] 2).chunks.length - 1) cdef).size ∧
        ((CreateManifest hashId "f" [1, 2, 3] 2).chunks.getD
              ((CreateManifest hashId "f" [1, 2, 3] 2).chunks.length - 1) cdef).size ≤ 2) ∧
      ((CreateManifest hashId "f" [1, 2, 3] 2).chunks.length = 0 ↔
        (List.cons 1 [2, 3] : Bytes).length = 0)) :=
  ⟨by decide, C5_chunk_layout hashId "f" [1, 2, 3] 2 (by decide)⟩

/-! Helper lemmas about the tracker registry. -/

lemma peerMatch_iff (q p : Peer) :
    (q.address == p.address && q.port == p.port) = true ↔ q = p := by
  cases q with
  | mk qa qp =>
    cases p with
    | mk pa pp => simp [Bool.and_eq_true, Peer.mk.injEq]

lemma announcePeer_not_present (t : TrackerMap) (h : String) (p : Peer)
    (hmem : p ∉ peersOf t h) :
    announcePeer t h p = fun k => if k = h then some (peersOf t h ++ [p]) else t k := by
  have hfalse : (peersOf t h).any
      (fun q => q.address == p.address && q.port == p.port) = false := by
    by_contra hc
    rw [Bool.not_eq_false, List.any_eq_true] at hc
    obtain ⟨q, hqmem, hqf⟩ := hc
    exact hmem (((peerMatch_iff q p).mp hqf) ▸ hqmem)
  simp [announcePeer, hfalse]

lemma announcePeer_present (t : TrackerMap) (h : String) (p : Peer)
    (hmem : p ∈ peersOf t h) : announcePeer t h p = t := by
  have hany : (peersOf t h).any
      (fun q => q.address == p.address && q.port == p.port) = true :=
    List.any_eq_true.mpr ⟨p, hmem, (peerMatch_iff p p).mpr rfl⟩
  simp only [announcePeer]
  rw [if_pos hany]

/-- C6: announcing the same `(fileHash, peer)` twice (or any number of times)
leaves exactly one entry for the peer under that hash: the registry update
deduplicates by exact (address, port) equality and is idempotent. The
hypothesis says the peer is not yet listed (as in any state reachable by
announces alone). -/
theorem C6_announce_idempotent (t : TrackerMap) (h : String) (p : Peer)
    (hcount : (peersOf t h).count p = 0) :
    announcePeer (announcePeer t h p) h p = announcePeer t h p ∧
    (peersOf (announcePeer t h p) h).count p = 1 := by
  have hmem : p ∉ peersOf t h := List.count_eq_zero.mp hcount
  have ht1 := announcePeer_not_present t h p hmem
  have ht2 : peersOf (announcePeer t h p) h = peersOf t h ++ [p] := by
    rw [ht1]
    simp [peersOf]
  constructor
  · have hp2 : p ∈ peersOf (announcePeer t h p) h := by
      rw [ht2]
      simp
    exact announcePeer_present _ _ _ hp2
  · rw [ht2, List.count_append, hcount]
    simp

/-- Witness for C6: announcing `("h", peer "a":1)` twice on the empty
registry stores the peer exactly once, and the second announce is a no-op. -/
theorem C6_announce_idempotent_witness :
    ((peersOf emptyTracker "h").count ⟨"a", 1⟩ = 0) ∧
    (announcePeer (announcePeer emptyTracker "h" ⟨"a", 1⟩) "h" ⟨"a", 1⟩ =
        announcePeer emptyTracker "h" ⟨"a", 1⟩ ∧
      (peersOf (announcePeer emptyTracker "h" ⟨"a", 1⟩) "h").count ⟨"a", 1⟩ = 1) :=
  ⟨rfl, C6_announce_idempotent emptyTracker "h" ⟨"a", 1⟩ rfl⟩

/-- C7 counterexample: the claim says a wrong (non-POST) method yields 400
and an empty `fileHash` is rejected with `InvalidArgument`. The handler
answers 405 Method Not Allowed to a GET, and accepts an announce with an
empty `fileHash` with 200, storing the peer under the empty-string key. -/
theorem C7_counterexample :
    (Announce emptyTracker Method.get (some ⟨"h", "a", 1⟩)).1 = 405 ∧
    (405 : Nat) ≠ 400 ∧
    (Announce emptyTracker Method.post (some ⟨"", "a", 1⟩)).1 = 200 ∧
    peersOf (Announce emptyTracker Method.post (some ⟨"", "a", 1⟩)).2 "" =
      [⟨"a", 1⟩] := by
  refine ⟨rfl, by decide, rfl, ?_⟩
  simp [Announce, announcePeer, emptyTracker, peersOf]

/-- C7 amended: `Announce` validates nothing beyond JSON decoding: every
decoded body — including an empty fileHash or any address/port — succeeds
with 200 and stores the peer under the given hash (deduplicated); 400 is
returned only for an undecodable body, and a non-POST method receives
405 Method Not Allowed, not 400. -/
theorem C7_announce_statuses (t : TrackerMap) (body : Option AnnounceRequest)
    (req : AnnounceRequest) :
    Announce t Method.get body = (405, t) ∧
    Announce t Method.other body = (405, t) ∧
    Announce t Method.post none = (400, t) ∧
    Announce t Method.post (some req) =
      (200, announcePeer t req.fileHash ⟨req.address, req.port⟩) ∧
    Peer.mk req.address req.port ∈
      peersOf (announcePeer t req.fileHash ⟨req.address, req.port⟩) req.fileHash := by
  refine ⟨rfl, rfl, rfl, rfl, ?_⟩
  by_cases hmem : Peer.mk req.address req.port ∈ peersOf t req.fileHash
  · rw [announcePeer_present t req.fileHash _ hmem]
    exact hmem
  · rw [announcePeer_not_present t req.fileHash _ hmem]
    simp [peersOf]

/-- C8 counterexample: the claim says an unknown hash yields a body whose
`peers` field is an empty array. The handler reads a nil slice from the map
and `encoding/json` marshals a nil slice as JSON `null`, not as `[]`. -/
theorem C8_counterexample :
    GetPeers emptyTracker Method.get "abc" = (200, some JVal.null) ∧
    JVal.null ≠ JVal.arr [] :=
  ⟨rfl, by decide⟩

/-- C8 amended: for every fileHash with no prior announcement, the registry
read yields an empty (nil) peer list and not an error, and
`GET /peers?fileHash=<hash>` responds 200 OK — but the body's `peers` field
is serialized as JSON `null` (the marshalling of a Go nil slice), not as an
empty array. -/
theorem C8_unknown_hash (t : TrackerMap) (h : String) (hne : h ≠ "")
    (hu : t h = none) :
    GetPeers t Method.get h = (200, some JVal.null) ∧ peersOf t h = [] := by
  constructor
  · simp [GetPeers, hne, hu, marshalPeers]
  · simp [peersOf, hu]

/-- Witness for C8 at the empty tracker and the hash `"abc"`. -/
theorem C8_unknown_hash_witness :
    ("abc" ≠ "") ∧ (emptyTracker "abc" = none) ∧
    (GetPeers emptyTracker Method.get "abc" = (200, some JVal.null) ∧
      peersOf emptyTracker "abc" = []) :=
  ⟨by decide, rfl, C8_unknown_hash emptyTracker "abc" (by decide) rfl⟩

/-! Helper lemmas about the download loop. -/

lemma range_map_shift {α : Type} (g1 g2 : Nat → α) (n : Nat)
    (hg : ∀ t, g2 t = g1 (t + 1)) :
    (List.range (n + 1)).map g1 = g1 0 :: (List.range n).map g2 := by
  rw [List.range_succ_eq_map, List.map_cons, List.map_map]
  congr 1
  apply List.map_congr_left
  intro a _
  simp [Function.comp, hg]

lemma range_reverse_map_shift {α : Type} (g1 g2 : Nat → α) (n : Nat)
    (hg : ∀ t, g2 t = g1 (t + 1)) :
    (List.range (n + 1)).reverse.map g1 = (List.range n).reverse.map g2 ++ [g1 0] := by
  rw [List.map_reverse, range_map_shift g1 g2 n hg, List.reverse_cons, ← List.map_reverse]

lemma dlGo_abort (H : Bytes → Bytes) (delivered : Nat → Bytes) :
    ∀ (j : Nat) (rest : List Chunk) (k : Nat) (w : Bytes) (ev : List Ev)
      (df : List Nat),
      j < rest.length →
      (∀ i, i ≤ j → (rest.getD i cdef).size ≤ (delivered (k + i)).length) →
      (∀ i, i < j →
        H ((delivered (k + i)).take (rest.getD i cdef).size) =
          (rest.getD i cdef).hash) →
      H ((delivered (k + j)).take (rest.getD j cdef).size) ≠
          (rest.getD j cdef).hash →
      dlGo H (fun i => some (delivered i)) k rest w ev df =
        ⟨w ++ ((List.range j).map
            (fun i => (delivered (k + i)).take (rest.getD i cdef).size)).join,
          (ev ++ (List.range (j + 1)).map (fun t => Ev.openC (k + t))) ++
            ((List.range (j + 1)).reverse.map (fun t => Ev.closeC (k + t)) ++
              df.map Ev.closeC),
          some DlErr.verifyFail⟩ := by
  intro j
  induction j with
  | zero =>
    intro rest k w ev df hj hok hver hbad
    cases rest with
    | nil => exact absurd hj (by simp)
    | cons ch rest2 =>
      have hre : ReadFull (delivered k) ch.size =
          Except.ok ((delivered k).take ch.size) := by
        unfold ReadFull
        rw [if_pos]
        have := hok 0 (Nat.le_refl 0)
        simpa using this
      have hbad2 : ¬ H ((delivered k).take ch.size) = ch.hash := by
        simpa using hbad
      simp only [dlGo, hre]
      rw [if_neg hbad2]
      simp [List.range_succ]
  | succ j ih =>
    intro rest k w ev df hj hok hver hbad
    cases rest with
    | nil => exact absurd hj (by simp)
    | cons ch rest2 =>
      have hre : ReadFull (delivered k) ch.size =
          Except.ok ((delivered k).take ch.size) := by
        unfold ReadFull
        rw [if_pos]
        have := hok 0 (by omega)
        simpa using this
      have hv0 : H ((delivered k).take ch.size) = ch.hash := by
        have := hver 0 (by omega)
        simpa using this
      simp only [dlGo, hre]
      rw [if_pos hv0]
      rw [ih rest2 (k + 1) (w ++ (delivered k).take ch.size) (ev ++ [Ev.openC k])
        (k :: df) (by simpa using hj)
        (fun i hi => by
          have harith : k + (i + 1) = k + 1 + i := by omega
          have := hok (i + 1) (by omega)
          simpa [List.getD_cons_succ, harith] using this)
        (fun i hi => by
          have harith : k + (i + 1) = k + 1 + i := by omega
          have := hver (i + 1) (by omega)
          simpa [List.getD_cons_succ, harith] using this)
        (by
          have harith : k + (j + 1) = k + 1 + j := by omega
          simpa [List.getD_cons_succ, harith] using hbad)]
      have hgw : ∀ t : Nat,
          (delivered (k + 1 + t)).take (rest2.getD t cdef).size =
            (delivered (k + t + 1)).take (((ch :: rest2).getD (t + 1) cdef)).size := by
        intro t
        have harith : k + 1 + t = k + t + 1 := by omega
        rw [List.getD_cons_succ, harith]
      have hgo : ∀ t : Nat, Ev.openC (k + 1 + t) = Ev.openC (k + (t + 1)) := by
        intro t
        have harith : k + 1 + t = k + (t + 1) := by omega
        rw [harith]
      have hgc : ∀ t : Nat, Ev.closeC (k + 1 + t) = Ev.closeC (k + (t + 1)) := by
        intro t
        have harith : k + 1 + t = k + (t + 1) := by omega
        rw [harith]
      congr 1
      · rw [range_map_shift
            (fun i => (delivered (k + i)).take (((ch :: rest2).getD i cdef)).size)
            (fun i => (delivered (k + 1 + i)).take ((rest2.getD i cdef)).size)
            j (fun t => by simpa using hgw t)]
        simp [List.join]
      · rw [range_map_shift (fun t => Ev.openC (k + t))
            (fun t => Ev.openC (k + 1 + t)) (j + 1) (fun t => hgo t),
          range_reverse_map_shift (fun t => Ev.closeC (k + t))
            (fun t => Ev.closeC (k + 1 + t)) (j + 1) (fun t => hgc t)]
        simp

/-- C4: during a download, if every chunk before `j` is delivered in full and
verifies, chunk `j` is delivered in full but fails hash verification, then
`DownloadFile` aborts with the IntegrityError (`verifyFail`): the output
file contains exactly the verified chunks before `j` (the failing chunk's
bytes are not appended), and the connections dialled are exactly those for
chunks `0..j` — no later chunk is fetched and no retry is made. -/
theorem C4_download_abort (H : Bytes → Bytes) (M : Manifest)
    (delivered : Nat → Bytes) (j : Nat)
    (hj : j < M.chunks.length)
    (hok : ∀ i, i ≤ j → (M.chunks.getD i cdef).size ≤ (delivered i).length)
    (hver : ∀ i, i < j →
      H ((delivered i).take (M.chunks.getD i cdef).size) =
        (M.chunks.getD i cdef).hash)
    (hbad : H ((delivered j).take (M.chunks.getD j cdef).size) ≠
        (M.chunks.getD j cdef).hash) :
    (DownloadFile H M (fun i => some (delivered i))).error = some DlErr.verifyFail ∧
    (DownloadFile H M (fun i => some (delivered i))).written =
      ((List.range j).map
        (fun i => (delivered i).take (M.chunks.getD i cdef).size)).join ∧
    (DownloadFile H M (fun i => some (delivered i))).events.filter Ev.isOpen =
      (List.range (j + 1)).map Ev.openC := by
  have hmain := dlGo_abort H delivered j M.chunks 0 [] [] [] hj
    (fun i hi => by simpa using hok i hi)
    (fun i hi => by simpa using hver i hi)
    (by simpa using hbad)
  unfold DownloadFile
  rw [hmain]
  refine ⟨rfl, by simp, ?_⟩
  have hopen : ((List.range (j + 1)).map (fun t => Ev.openC (0 + t))).filter
      Ev.isOpen = (List.range (j + 1)).map (fun t => Ev.openC (0 + t)) := by
    rw [List.filter_eq_self]
    intro a ha
    rcases List.mem_map.mp ha with ⟨t, _, rfl⟩
    rfl
  have hclose : ((List.range (j + 1)).reverse.map
      (fun t => Ev.closeC (0 + t))).filter Ev.isOpen = [] := by
    rw [List.filter_eq_nil]
    intro a ha
    rcases List.mem_map.mp ha with ⟨t, _, rfl⟩
    simp [Ev.isOpen]
  simp only [List.filter_append, hopen, hclose, List.map_nil, List.filter_nil,
    List.append_nil, List.nil_append]
  apply List.map_congr_left
  intro a _
  simp

/-- Download scenario used by the A-claims about `DownloadFile`: a two-chunk
manifest whose digests (under the injective stand-in `hashId`) are `[5]`
and `[9]`. -/
def m4 : Manifest := ⟨"f", 2, 1, [⟨[5], 1⟩, ⟨[9], 1⟩], [5, 9]⟩

/-- Witness for C4: chunk 0 delivers `[5]` and verifies, chunk 1 delivers
`[7]` whose digest differs from `[9]`; the download aborts at chunk 1. -/
theorem C4_download_abort_witness :
    (1 < m4.chunks.length) ∧
    ((DownloadFile hashId m4
        (fun i => some ((fun i => if i = 0 then [5] else [7]) i))).error =
      some DlErr.verifyFail ∧
    (DownloadFile hashId m4
        (fun i => some ((fun i => if i = 0 then [5] else [7]) i))).written =
      ((List.range 1).map
        (fun i => ((fun i => if i = 0 then ([5] : Bytes) else [7]) i).take
          (m4.chunks.getD i cdef).size)).join ∧
    (DownloadFile hashId m4
        (fun i => some ((fun i => if i = 0 then [5] else [7]) i))).events.filter
        Ev.isOpen = (List.range 2).map Ev.openC) :=
  ⟨by decide, C4_download_abort hashId m4 (fun i => if i = 0 then [5] else [7]) 1
    (by decide)
    (fun i hi => by interval_cases i <;> decide)
    (fun i hi => by interval_cases i <;> decide)
    (by decide)⟩

/-- C9: the claim states that the connection for each chunk is closed before
the connection for the next chunk is opened. In the code `defer conn.Close()`
sits inside the loop, so every close runs only at function return (in LIFO
order): in a successful two-chunk download the trace is
open 0, open 1, close 1, close 0 — the connection for chunk 1 is opened
while the connection for chunk 0 is still open. -/
theorem C9_connections_overlap :
    DownloadFile hashId m4 (fun i => some (if i = 0 then [5] else [9])) =
      ⟨[5, 9], [Ev.openC 0, Ev.openC 1, Ev.closeC 1, Ev.closeC 0], none⟩ := by
  decide

/-- C3 counterexample: the claim states that every client chunk-fetch
operation surfaces a connection closed before `chunk.size` bytes were
received as a failed fetch, never as a successfully received zero-length
chunk. For an out-of-range index the server closes without payload, and
`DownloadChunk` — which reads with `io.ReadAll` — then returns the empty
payload as a success. -/
theorem C3_counterexample :
    serveWrites (handleConnection hashId "f" [1, 2, 3] 5) = [] ∧
    DownloadChunk (serveWrites (handleConnection hashId "f" [1, 2, 3] 5)) =
      Except.ok [] := by
  refine ⟨by decide, rfl⟩

/-- C3 amended: a request whose `chunkIndex` is outside `[0, len(chunks))`
makes the serving peer close the connection without sending any payload, and
`DownloadFile` (the fetch path actually used for downloads) surfaces a
connection closed before `chunk.size` bytes were received as a failed fetch;
`DownloadChunk`, however, reads until close with `io.ReadAll` and returns
whatever bytes arrived (even zero-length) as a successful fetch. -/
theorem C3_out_of_range (H : Bytes → Bytes) (nm : String) (file : Bytes) :
    (∀ idx : Int,
      ((numChunks file.length DefaultChunkSize : Int) ≤ idx ∨ idx < 0) →
      serveWrites (handleConnection H nm file idx) = []) ∧
    (∀ (delivered : Bytes) (size : Nat), delivered.length < size →
      ReadFull delivered size = Except.error ()) ∧
    (∀ (M : Manifest) (ch : Chunk) (rest : List Chunk) (net : Nat → Option Bytes)
        (l : Bytes), M.chunks = ch :: rest → net 0 = some l →
      l.length < ch.size →
      (DownloadFile H M net).error = some DlErr.readFail ∧
      (DownloadFile H M net).written = []) ∧
    (∀ delivered : Bytes, DownloadChunk delivered = Except.ok delivered) := by
  refine ⟨?_, ?_, ?_, ?_⟩
  · intro idx hidx
    have hcond : idx < 0 ∨
        ((CreateManifest H nm file DefaultChunkSize).chunks.length : Int) ≤ idx := by
      rcases hidx with hle | hlt
      · right
        rw [chunks_length]
        exact hle
      · left
        exact hlt
    simp only [handleConnection]
    rw [if_pos hcond]
    rfl
  · intro delivered size hlen
    unfold ReadFull
    rw [if_neg (by omega)]
  · intro M ch rest net l hch hnet hlen
    have hrf : ReadFull l ch.size = Except.error () := by
      unfold ReadFull
      rw [if_neg (by omega)]
    unfold DownloadFile
    rw [hch]
    simp [dlGo, hnet, hrf]
  · intro delivered
    rfl

/-- Witness for C3 applying the amended statement at concrete inputs. -/
theorem C3_out_of_range_witness :
    serveWrites (handleConnection hashId "g" [1, 2] (-1)) = [] ∧
    ReadFull [] 2 = Except.error () ∧
    ((DownloadFile hashId ⟨"g", 2, 2, [⟨[1, 2], 2⟩], [1, 2]⟩
        (fun _ => some [1])).error = some DlErr.readFail ∧
      (DownloadFile hashId ⟨"g", 2, 2, [⟨[1, 2], 2⟩], [1, 2]⟩
        (fun _ => some [1])).written = []) ∧
    DownloadChunk [3] = Except.ok [3] := by
  have T := C3_out_of_range hashId "g" [1, 2]
  exact ⟨T.1 (-1) (Or.inr (by decide)), T.2.1 [] 2 (by decide),
    T.2.2.1 ⟨"g", 2, 2, [⟨[1, 2], 2⟩], [1, 2]⟩ ⟨[1, 2], 2⟩ [] (fun _ => some [1])
      [1] rfl rfl (by decide),
    T.2.2.2 [3]⟩

/-! Helper lemmas about chunk counts for the server-side chunking claim. -/

lemma sizes_map (H : Bytes → Bytes) (nm : String) (file : Bytes) (c : Nat) :
    (CreateManifest H nm file c).chunks.map (fun ch => ch.size) =
      (List.range (numChunks file.length c)).map (chunkSizeAt file.length c) := by
  simp [CreateManifest, List.map_map]

lemma numChunks_pos (n c : Nat) (hc : 0 < c) (hn : 0 < n) : 0 < numChunks n c := by
  rw [numChunks_pos_eq n c hc hn]
  exact Nat.succ_pos _

lemma numChunks_eq_one (n c : Nat) (hc : 0 < c) (hn : 0 < n) (hle : n ≤ c) :
    numChunks n c = 1 := by
  rw [numChunks_pos_eq n c hc hn, Nat.div_eq_of_lt (by omega)]

lemma numChunks_ge_two (n c : Nat) (hc : 0 < c) (hlt : c < n) :
    2 ≤ numChunks n c := by
  rw [numChunks_pos_eq n c hc (by omega)]
  have h1 : 1 ≤ (n - 1) / c := (Nat.le_div_iff_mul_le hc).mpr (by omega)
  exact Nat.add_le_add_right h1 1

lemma chunkSizeAt_zero_two (n c : Nat) (h2 : 2 ≤ numChunks n c) :
    chunkSizeAt n c 0 = c := by
  unfold chunkSizeAt
  rw [if_neg (by omega)]

lemma chunkSizeAt_zero_one (n c : Nat) (h1 : numChunks n c = 1) :
    chunkSizeAt n c 0 = n := by
  unfold chunkSizeAt
  rw [h1]
  simp

lemma sizes_eq_iff (H : Bytes → Bytes) (nm : String) (file : Bytes) (c : Nat)
    (hc : 0 < c) :
    ((CreateManifest H nm file c).chunks.map (fun ch => ch.size) =
        (CreateManifest H nm file DefaultChunkSize).chunks.map (fun ch => ch.size)) ↔
      (c = DefaultChunkSize ∨ file.length = 0 ∨
        (file.length ≤ c ∧ file.length ≤ DefaultChunkSize)) := by
  have hD : 0 < DefaultChunkSize := by decide
  rw [sizes_map, sizes_map]
  constructor
  · intro heq
    by_cases hcD : c = DefaultChunkSize
    · exact Or.inl hcD
    by_cases hn0 : file.length = 0
    · exact Or.inr (Or.inl hn0)
    have hn : 0 < file.length := Nat.pos_of_ne_zero hn0
    have hlen2 : numChunks file.length c = numChunks file.length DefaultChunkSize := by
      have h1 := congrArg List.length heq
      simpa using h1
    have hhead : chunkSizeAt file.length c 0 =
        chunkSizeAt file.length DefaultChunkSize 0 := by
      have h1 : ((List.range (numChunks file.length c)).map
            (chunkSizeAt file.length c)).getD 0 0 =
          ((List.range (numChunks file.length DefaultChunkSize)).map
            (chunkSizeAt file.length DefaultChunkSize)).getD 0 0 := by
        rw [heq]
      rw [getD_range_map _ _ (numChunks_pos _ _ hc hn),
        getD_range_map _ _ (numChunks_pos _ _ hD hn)] at h1
      exact h1
    right
    right
    rcases Nat.lt_or_ge c file.length with hlt | hge
    · exfalso
      have h2c : 2 ≤ numChunks file.length c := numChunks_ge_two _ _ hc hlt
      rw [chunkSizeAt_zero_two _ _ h2c] at hhead
      rcases Nat.lt_or_ge DefaultChunkSize file.length with hltD | hgeD
      · have h2D : 2 ≤ numChunks file.length DefaultChunkSize :=
          numChunks_ge_two _ _ hD hltD
        rw [chunkSizeAt_zero_two _ _ h2D] at hhead
        exact hcD hhead
      · have h1D : numChunks file.length DefaultChunkSize = 1 :=
          numChunks_eq_one _ _ hD hn hgeD
        rw [chunkSizeAt_zero_one _ _ h1D] at hhead
        omega
    · refine ⟨hge, ?_⟩
      rcases Nat.lt_or_ge DefaultChunkSize file.length with hltD | hgeD
      · exfalso
        have h1c : numChunks file.length c = 1 := numChunks_eq_one _ _ hc hn hge
        have h2D : 2 ≤ numChunks file.length DefaultChunkSize :=
          numChunks_ge_two _ _ hD hltD
        omega
      · exact hgeD
  · intro hr
    rcases hr with hcD | hn0 | hcc
    · rw [hcD]
    · rw [hn0, numChunks_zero_left c hc, numChunks_zero_left DefaultChunkSize hD]
      simp
    · rcases Nat.eq_zero_or_pos file.length with h0 | hp
      · rw [h0, numChunks_zero_left c hc, numChunks_zero_left DefaultChunkSize hD]
        simp
      · have h1c : numChunks file.length c = 1 := numChunks_eq_one _ _ hc hp hcc.1
        have h1D : numChunks file.length DefaultChunkSize = 1 :=
          numChunks_eq_one _ _ hD hp hcc.2
        have e1 : chunkSizeAt file.length c 0 = file.length :=
          chunkSizeAt_zero_one _ _ h1c
        have e2 : chunkSizeAt file.length DefaultChunkSize 0 = file.length :=
          chunkSizeAt_zero_one _ _ h1D
        rw [h1c, h1D]
        simp [List.range_succ, e1, e2]

/-- C10 counterexample: the claim states that a requester whose manifest was
built with any chunkSize other than `DefaultChunkSize` receives mismatched
chunk boundaries. For a 10-byte file, a requester manifest built with
`chunkSize = 20` has exactly the same single-chunk layout as the server's
`DefaultChunkSize` manifest, although `20 ≠ DefaultChunkSize`. -/
theorem C10_counterexample :
    (CreateManifest hashId "f" (List.range 10) 20).chunks.map (fun ch => ch.size) =
      (CreateManifest hashId "f" (List.range 10) DefaultChunkSize).chunks.map
        (fun ch => ch.size) ∧
    (20 : Nat) ≠ DefaultChunkSize :=
  ⟨by decide, by decide⟩

/-- C10 amended: the serving peer recomputes the manifest from the on-disk
file with the fixed `DefaultChunkSize` (1,048,576), so the accepted index
range is exactly `[0, ceil(fileSize / DefaultChunkSize))` — a function of
the file's size and that constant only, independent of the requester's
manifest — and the byte range `GetChunk` touches for chunk `i` is determined
by the file size and the constant (offset `64 * size_i`, length `size_i`,
for the 64-character hex digest). A requester whose manifest was built with
another `chunkSize` holds mismatched chunk boundaries exactly when the two
chunkings differ, i.e. unless the file is empty or fits in a single chunk
under both sizes. -/
theorem C10_server_chunking (H : Bytes → Bytes) (hlen : ∀ d, (H d).length = 64)
    (nm : String) (file : Bytes) (idx : Int) (c : Nat) (hc : 0 < c) :
    (handleConnection H nm file idx = ServeOutcome.invalidIndex ↔
      (idx < 0 ∨ (numChunks file.length DefaultChunkSize : Int) ≤ idx)) ∧
    (∀ i, i < numChunks file.length DefaultChunkSize →
      getChunkOffset
          ((CreateManifest H nm file DefaultChunkSize).chunks.getD i cdef) =
        64 * chunkSizeAt file.length DefaultChunkSize i) ∧
    ((CreateManifest H nm file c).chunks.map (fun ch => ch.size) =
        (CreateManifest H nm file DefaultChunkSize).chunks.map (fun ch => ch.size) ↔
      (c = DefaultChunkSize ∨ file.length = 0 ∨
        (file.length ≤ c ∧ file.length ≤ DefaultChunkSize))) := by
  refine ⟨?_, ?_, sizes_eq_iff H nm file c hc⟩
  · have hcl : ((CreateManifest H nm file DefaultChunkSize).chunks.length : Int) =
        (numChunks file.length DefaultChunkSize : Int) := by
      rw [chunks_length]
    simp only [handleConnection]
    by_cases hcond : idx < 0 ∨
        ((CreateManifest H nm file DefaultChunkSize).chunks.length : Int) ≤ idx
    · rw [if_pos hcond]
      constructor
      · intro _
        rcases hcond with h1 | h2
        · exact Or.inl h1
        · right
          rw [← hcl]
          exact h2
      · intro _
        rfl
    · rw [if_neg hcond]
      constructor
      · intro hEq
        exfalso
        cases hG : GetChunk H file
            ((CreateManifest H nm file DefaultChunkSize).chunks.getD idx.toNat cdef) with
        | error e =>
          rw [hG] at hEq
          simp at hEq
        | ok d =>
          rw [hG] at hEq
          simp at hEq
      · intro hR
        exfalso
        apply hcond
        rcases hR with h1 | h2
        · exact Or.inl h1
        · right
          rw [hcl]
          exact h2
  · intro i hi
    rw [chunks_getD H nm file DefaultChunkSize hi, getChunkOffset_eq]
    simp [hlen]

/-- Witness for C10 at a 10-byte file, request index 0, and requester
chunkSize 20, with the fixed-length digest stand-in `hash64`. -/
theorem C10_server_chunking_witness :
    (∀ d, (hash64 d).length = 64) ∧ (0 : Nat) < 20 ∧
    ((handleConnection hash64 "f" (List.range 10) 0 = ServeOutcome.invalidIndex ↔
      ((0 : Int) < 0 ∨ (numChunks (List.range 10).length DefaultChunkSize : Int) ≤ 0)) ∧
    (∀ i, i < numChunks (List.range 10).length DefaultChunkSize →
      getChunkOffset ((CreateManifest hash64 "f" (List.range 10)
          DefaultChunkSize).chunks.getD i cdef) =
        64 * chunkSizeAt (List.range 10).length DefaultChunkSize i) ∧
    ((CreateManifest hash64 "f" (List.range 10) 20).chunks.map (fun ch => ch.size) =
        (CreateManifest hash64 "f" (List.range 10) DefaultChunkSize).chunks.map
          (fun ch => ch.size) ↔
      ((20 : Nat) = DefaultChunkSize ∨ (List.range 10).length = 0 ∨
        ((List.range 10).length ≤ 20 ∧ (List.range 10).length ≤ DefaultChunkSize)))) :=
  ⟨fun d => by simp [hash64], by decide,
    C10_server_chunking hash64 (fun d => by simp [hash64]) "f" (List.range 10) 0 20
      (by decide)⟩

end GoShare
